import Mathlib

/-!
Verification of the Optuna experiment-tracking callback adapters.

This file gives a shallow embedding of the two callback adapters of the
repository: `WeightsAndBiasesCallback` (translated directly from
`optuna/integration/wandb.py`) and the MLflow callback/integrator
(whose implementation file is absent; only its test suite
`tests/integration_tests/test_mlflow.py` is present, so the MLflow side is
modelled from the specification, with doc comments marking each modelled
definition).

External collaborators (trial/study records, the tracking SDKs' run stores)
are embedded as explicit Lean structures, and the SDK calls as state
transformers over those stores.
-/

set_option autoImplicit false

/-- Value type for Python values flowing through the adapters
(categorical choices of a distribution: bool / number / string). -/
inductive CVal where
  | cstr (s : String)
  | cnum (q : ℚ)
  | cbool (b : Bool)
deriving DecidableEq, Repr

/-- Optuna distribution objects attached to a trial's parameters
(external collaborators; only their identity and printed form matter here). -/
inductive Distribution where
  | uniform (low high : ℚ)
  | logUniform (low high : ℚ)
  | intUniform (low high : Int)
  | categorical (choices : List CVal)
deriving DecidableEq, Repr

/-- Generic Python value as it appears in params / user attributes /
logged dictionaries: a string, a number, `None`, or a mapping from
parameter names to distributions (the wandb adapter logs the whole
`trial.distributions` dict as one value). -/
inductive WVal where
  | wstr (s : String)
  | wnum (q : ℚ)
  | wnone
  | wdists (d : List (String × Distribution))
deriving DecidableEq, Repr

/-- `optuna.trial.TrialState` (external collaborator). -/
inductive TrialState where
  | running
  | complete
  | pruned
  | fail
  | waiting
deriving DecidableEq, Repr

/-- `optuna.study.StudyDirection` (external collaborator). -/
inductive StudyDirection where
  | notSet
  | minimize
  | maximize
deriving DecidableEq, Repr

/-- The tail of `str(trial.state)` after the dot, as computed by
`str(trial.state).split(".")[-1]` in `wandb.py`. -/
def stateStr : TrialState → String
  | .running => "RUNNING"
  | .complete => "COMPLETE"
  | .pruned => "PRUNED"
  | .fail => "FAIL"
  | .waiting => "WAITING"

/-- The tail of `str(study.direction)` after the dot, as computed by
`str(study.direction).split(".")[-1]` in `wandb.py`. -/
def directionStr : StudyDirection → String
  | .notSet => "NOT_SET"
  | .minimize => "MINIMIZE"
  | .maximize => "MAXIMIZE"

/-- Decimal-free printing of a rational, standing in for Python `str` on
numbers (the exact digits are irrelevant to every claim; only that each
value has a definite printed form). -/
def ratStr (q : ℚ) : String :=
  if q.den = 1 then toString q.num else toString q.num ++ "/" ++ toString q.den

/-- Printing of a categorical choice, standing in for Python `str`/`repr`. -/
def cvalStr : CVal → String
  | .cstr s => s
  | .cnum q => ratStr q
  | .cbool true => "True"
  | .cbool false => "False"

/-- `str(distribution)`: the printed form of a distribution, as it appears in
tags such as `x_distribution` (cf. `test_mlflow.py` lines 70-81). -/
def distStr : Distribution → String
  | .uniform low high =>
      "UniformDistribution(high=" ++ ratStr high ++ ", low=" ++ ratStr low ++ ")"
  | .logUniform low high =>
      "LogUniformDistribution(high=" ++ ratStr high ++ ", low=" ++ ratStr low ++ ")"
  | .intUniform low high =>
      "IntUniformDistribution(high=" ++ toString high ++ ", low=" ++ toString low ++ ")"
  | .categorical choices =>
      "CategoricalDistribution(choices=(" ++
        String.intercalate ", " (choices.map cvalStr) ++ "))"

/-- Python `str` on a generic value (for MLflow param/tag stringification). -/
def wvalStr : WVal → String
  | .wstr s => s
  | .wnum q => ratStr q
  | .wnone => "None"
  | .wdists d =>
      "\x7b" ++ String.intercalate ", " (d.map (fun pd => pd.1 ++ ": " ++ distStr pd.2)) ++ "\x7d"

/-- Objective value(s) of a finished trial: a single optional float for a
single-objective study, or a list for a multi-objective one
(`Union[float, List[float], None]` on the Python side). -/
inductive PyVals where
  | single (v : Option ℚ)
  | multi (vs : List (Option ℚ))
deriving DecidableEq, Repr

/-- `optuna.trial.FrozenTrial` (external collaborator): the fields the
adapters read. -/
structure FrozenTrial where
  number : Nat
  state : TrialState
  values : PyVals
  params : List (String × WVal)
  distributions : List (String × Distribution)
  user_attrs : List (String × WVal)
deriving DecidableEq, Repr

/-- `optuna.study.Study` (external collaborator): the fields the adapters
read. -/
structure WStudy where
  study_name : String
  direction : StudyDirection
  user_attrs : List (String × WVal)
deriving DecidableEq, Repr

/-- `trial.value` for a single-objective trial: the single optional float
(the wandb adapter reads this field). A multi-objective trial has no
`.value`; the wandb-era callback is single-objective, and this projection
answers `none` there. -/
def FrozenTrial.value (t : FrozenTrial) : Option ℚ :=
  match t.values with
  | .single v => v
  | .multi _ => none

/-- The `WVal` wandb receives for `trial.value` (`None` becomes Python
`None`). -/
def trialValueW (t : FrozenTrial) : WVal :=
  match t.value with
  | none => .wnone
  | some q => .wnum q

/-! ### Python dict semantics

Both adapters build Python `dict` literals (`{**a, k: v}` and
`dict.update`). A dict is embedded as an association list with unique
keys; a literal with possibly repeated keys is normalised by `mkDict`,
where a later binding replaces an earlier one in place. -/

/-- In-place insertion of a binding into an association list: replaces the
value at the first occurrence of the key, else appends (Python dict
assignment semantics). -/
def insertKV (d : List (String × WVal)) (k : String) (v : WVal) : List (String × WVal) :=
  match d with
  | [] => [(k, v)]
  | (k', v') :: rest => if k' = k then (k', v) :: rest else (k', v') :: insertKV rest k v

/-- The Python dict denoted by a key/value list with possibly repeated keys
(later bindings win), e.g. the literal `{**trial.params, m: v}`. -/
def mkDict (l : List (String × WVal)) : List (String × WVal) :=
  l.foldl (fun d kv => insertKV d kv.1 kv.2) []

/-- Python `d[k]` as a partial lookup (first — and in a `mkDict` image,
only — occurrence of the key). -/
def lookupKV (d : List (String × WVal)) (k : String) : Option WVal :=
  match d with
  | [] => none
  | (k', v') :: rest => if k' = k then some v' else lookupKV rest k

/-- The keys of an association list, in order. -/
def keysKV (d : List (String × WVal)) : List String :=
  d.map Prod.fst

/-- Python `dict.update`: fold the update's bindings into the base dict. -/
def dictUpdate (base upd : List (String × WVal)) : List (String × WVal) :=
  upd.foldl (fun d kv => insertKV d kv.1 kv.2) base

/-! ### The Weights & Biases SDK model (`wandb`)

`wandb` keeps a list of runs; `wandb.init(..., reinit=True)` appends a
fresh run, which becomes the active run (the last element); `wandb.config.update`
merges into the active run's config; `wandb.log(d, step=n)` appends an
entry to the active run's history. -/

/-- One wandb run: the settings passed at `wandb.init`, plus the accumulated
config and the logged history (step, payload). -/
structure WandbRun where
  project : Option String
  group : Option String
  entity : Option String
  name : Option String
  job_type : Option String
  mode : String
  config : List (String × WVal)
  history : List (Nat × List (String × WVal))
deriving DecidableEq, Repr

/-- The wandb SDK's global state: the runs created so far; the active run is
the last one. -/
structure WandbState where
  runs : List WandbRun
deriving DecidableEq, Repr

/-- Apply a function to the last element of a list (the active run). -/
def updLast (f : WandbRun → WandbRun) : List WandbRun → List WandbRun
  | [] => []
  | r :: rest =>
    match rest with
    | [] => [f r]
    | _ :: _ => r :: updLast f rest

/-- Apply a function to the active (last-created) wandb run. -/
def updateActive (f : WandbRun → WandbRun) (st : WandbState) : WandbState :=
  { runs := updLast f st.runs }

/-- `wandb.init(project=…, group=…, entity=…, name=…, job_type=…, mode=…,
reinit=True)`: append a fresh run with the given settings. -/
def wandbInit (project group entity name job_type : Option String) (mode : String)
    (st : WandbState) : WandbState :=
  { runs := st.runs ++ [⟨project, group, entity, name, job_type, mode, [], []⟩] }

/-- `wandb.config.update(attributes)` on the active run. -/
def wandbConfigUpdate (attributes : List (String × WVal)) (st : WandbState) : WandbState :=
  updateActive (fun r => { r with config := dictUpdate r.config attributes }) st

/-- `wandb.log(d, step=n)` on the active run. -/
def wandbLog (d : List (String × WVal)) (step : Nat) (st : WandbState) : WandbState :=
  updateActive (fun r => { r with history := r.history ++ [(step, d)] }) st

/-! ### `WeightsAndBiasesCallback` (from `optuna/integration/wandb.py`) -/

/-- The adapter object: the configuration fields stored by `__init__`
(`wandb.py` lines 91-97). -/
structure WeightsAndBiasesCallback where
  _metric_name : String
  _project_name : Option String
  _group_name : Option String
  _entity_name : Option String
  _run_name : Option String
  _job_type : Option String
  _mode : String
deriving DecidableEq, Repr

/-- `WeightsAndBiasesCallback._initialize_run` (`wandb.py` lines 116-127):
`wandb.init` with the stored configuration. -/
def initRun (self : WeightsAndBiasesCallback) (st : WandbState) : WandbState :=
  wandbInit self._project_name self._group_name self._entity_name self._run_name
    self._job_type self._mode st

/-- `WeightsAndBiasesCallback.__init__` (`wandb.py` lines 78-99): store the
configuration fields, then initialize the run. Returns the constructed
adapter together with the post-construction SDK state. -/
def wandbCallbackNew (metric_name : String)
    (project_name group_name entity_name run_name job_type : Option String)
    (mode : String) (st : WandbState) : WeightsAndBiasesCallback × WandbState :=
  let self : WeightsAndBiasesCallback :=
    ⟨metric_name, project_name, group_name, entity_name, run_name, job_type, mode⟩
  (self, initRun self st)

/-- The `attributes` dict built by `__call__` (`wandb.py` lines 106-111):
`{"direction": …, "trial_state": …, "distributions": …, **study.user_attrs}`. -/
def wandbAttributes (study : WStudy) (trial : FrozenTrial) : List (String × WVal) :=
  mkDict
    ([("direction", .wstr (directionStr study.direction)),
      ("trial_state", .wstr (stateStr trial.state)),
      ("distributions", .wdists trial.distributions)] ++ study.user_attrs)

/-- The dict passed to `wandb.log` by `__call__` (`wandb.py` line 114):
`{**trial.params, self._metric_name: trial.value}`. -/
def wandbLoggedDict (self : WeightsAndBiasesCallback) (trial : FrozenTrial) :
    List (String × WVal) :=
  mkDict (trial.params ++ [(self._metric_name, trialValueW trial)])

/-- `WeightsAndBiasesCallback.__call__` (`wandb.py` lines 101-114): update
the config with the attributes, then log params and value at step
`trial.number`. The body assigns to no field of `self`, so the adapter
component of the result is `self` itself. -/
def wandbCall (self : WeightsAndBiasesCallback) (study : WStudy) (trial : FrozenTrial)
    (st : WandbState) : WeightsAndBiasesCallback × WandbState :=
  let st1 := wandbConfigUpdate (wandbAttributes study trial) st
  let st2 := wandbLog (wandbLoggedDict self trial) trial.number st1
  (self, st2)

/-- A sequence of callback invocations, as the external driver loop performs
them: fold `__call__` over the completed (study, trial) events, threading
the adapter object and the SDK state. -/
def wandbFold (self : WeightsAndBiasesCallback) (events : List (WStudy × FrozenTrial))
    (st : WandbState) : WeightsAndBiasesCallback × WandbState :=
  match events with
  | [] => (self, st)
  | e :: rest =>
    let p := wandbCall self e.1 e.2 st
    wandbFold p.1 rest p.2

/-- The history of the active (last-created) wandb run. -/
def lastHistory (st : WandbState) : List (Nat × List (String × WVal)) :=
  match st.runs.getLast? with
  | none => []
  | some r => r.history

/-! ### Association-list (Python dict) lemmas -/

theorem lookupKV_insertKV_self (d : List (String × WVal)) (k : String) (v : WVal) :
    lookupKV (insertKV d k v) k = some v := by
  induction d with
  | nil => simp [insertKV, lookupKV]
  | cons kv rest ih =>
    obtain ⟨k', v'⟩ := kv
    by_cases h : k' = k
    · simp [insertKV, lookupKV, h]
    · simp [insertKV, lookupKV, h, ih]


theorem lookupKV_insertKV_ne (d : List (String × WVal)) (k k' : String) (v : WVal)
    (h : k' ≠ k) : lookupKV (insertKV d k v) k' = lookupKV d k' := by
  induction d with
  | nil =>
    simp only [insertKV, lookupKV]
    rw [if_neg (Ne.symm h)]
  | cons kv rest ih =>
    obtain ⟨k0, v0⟩ := kv
    by_cases h0 : k0 = k
    · subst h0
      simp only [insertKV, if_pos rfl, lookupKV]
      rw [if_neg (Ne.symm h), if_neg (Ne.symm h)]
    · simp only [insertKV, if_neg h0, lookupKV]
      by_cases h1 : k0 = k'
      · rw [if_pos h1, if_pos h1]
      · rw [if_neg h1, if_neg h1, ih]

theorem mkDict_append_singleton (l : List (String × WVal)) (k : String) (v : WVal) :
    mkDict (l ++ [(k, v)]) = insertKV (mkDict l) k v := by
  simp [mkDict, List.foldl_append]

theorem mem_keysKV_of_mem {d : List (String × WVal)} {kv : String × WVal}
    (h : kv ∈ d) : kv.1 ∈ keysKV d :=
  List.mem_map_of_mem Prod.fst h

theorem keysKV_insertKV (d : List (String × WVal)) (k : String) (v : WVal) :
    keysKV (insertKV d k v) = if k ∈ keysKV d then keysKV d else keysKV d ++ [k] := by
  induction d with
  | nil => simp [insertKV, keysKV]
  | cons kv rest ih =>
    obtain ⟨k0, v0⟩ := kv
    by_cases h : k0 = k
    · subst h
      simp [insertKV, keysKV]
    · have hne : k ≠ k0 := Ne.symm h
      have hmem : (k ∈ keysKV ((k0, v0) :: rest)) ↔ (k ∈ keysKV rest) := by
        simp [keysKV, hne]
      have hcons : keysKV ((k0, v0) :: insertKV rest k v) = k0 :: keysKV (insertKV rest k v) := rfl
      simp only [insertKV, if_neg h]
      by_cases h2 : k ∈ keysKV rest
      · rw [if_pos (hmem.mpr h2), hcons, ih, if_pos h2]
        rfl
      · rw [if_neg (fun hc => h2 (hmem.mp hc)), hcons, ih, if_neg h2]
        rfl

theorem nodup_keysKV_insertKV {d : List (String × WVal)} (k : String) (v : WVal)
    (h : (keysKV d).Nodup) : (keysKV (insertKV d k v)).Nodup := by
  rw [keysKV_insertKV]
  by_cases hm : k ∈ keysKV d
  · simpa [hm] using h
  · simp [hm, List.nodup_append, h]

theorem nodup_keysKV_dictUpdate (upd : List (String × WVal)) :
    ∀ d : List (String × WVal), (keysKV d).Nodup → (keysKV (dictUpdate d upd)).Nodup := by
  induction upd with
  | nil => intro d h; exact h
  | cons kv rest ih =>
    intro d h
    exact ih _ (nodup_keysKV_insertKV kv.1 kv.2 h)

theorem nodup_keysKV_mkDict (l : List (String × WVal)) : (keysKV (mkDict l)).Nodup :=
  nodup_keysKV_dictUpdate l [] (by simp [keysKV])

theorem mem_insertKV_self_eq (k : String) (x v : WVal) :
    ∀ d : List (String × WVal), (keysKV d).Nodup → (k, x) ∈ insertKV d k v → x = v := by
  intro d
  induction d with
  | nil =>
    intro _ h
    simp only [insertKV, List.mem_singleton, Prod.mk.injEq] at h
    exact h.2
  | cons kv rest ih =>
    intro hnd h
    obtain ⟨k', v'⟩ := kv
    simp only [keysKV, List.map_cons, List.nodup_cons] at hnd
    by_cases hk : k' = k
    · subst hk
      have hunf : insertKV ((k', v') :: rest) k' v = (k', v) :: rest := by
        simp [insertKV]
      rw [hunf] at h
      rcases List.mem_cons.mp h with h1 | h1
      · exact (Prod.ext_iff.mp h1).2
      · exact absurd (by simpa [keysKV] using mem_keysKV_of_mem h1) hnd.1
    · have hunf : insertKV ((k', v') :: rest) k v = (k', v') :: insertKV rest k v := by
        simp [insertKV, hk]
      rw [hunf] at h
      rcases List.mem_cons.mp h with h1 | h1
      · exact absurd (Prod.ext_iff.mp h1).1.symm hk
      · exact ih (by simpa [keysKV] using hnd.2) h1

theorem lookupKV_dictUpdate_not_mem (upd : List (String × WVal)) (k : String) :
    ∀ d : List (String × WVal), k ∉ keysKV upd →
      lookupKV (dictUpdate d upd) k = lookupKV d k := by
  induction upd with
  | nil => intro d _; rfl
  | cons kv rest ih =>
    intro d h
    obtain ⟨k', v'⟩ := kv
    simp only [keysKV, List.map_cons, List.mem_cons, not_or] at h
    have step : dictUpdate d ((k', v') :: rest) = dictUpdate (insertKV d k' v') rest := rfl
    rw [step, ih _ (by simpa [keysKV] using h.2), lookupKV_insertKV_ne _ _ _ _ h.1]

theorem lookupKV_dictUpdate_mem (upd : List (String × WVal)) (k : String) (v : WVal) :
    ∀ d : List (String × WVal), (k, v) ∈ upd → (keysKV upd).Nodup →
      lookupKV (dictUpdate d upd) k = some v := by
  induction upd with
  | nil => intro d hm _; simp at hm
  | cons kv rest ih =>
    intro d hm hnd
    obtain ⟨k', v'⟩ := kv
    simp only [keysKV, List.map_cons, List.nodup_cons] at hnd
    have step : dictUpdate d ((k', v') :: rest) = dictUpdate (insertKV d k' v') rest := rfl
    rcases List.mem_cons.mp hm with h | h
    · obtain ⟨hk, hv⟩ := Prod.mk.injEq .. ▸ h
      subst hk
      subst hv
      have hnm : k ∉ keysKV rest := by simpa [keysKV] using hnd.1
      rw [step, lookupKV_dictUpdate_not_mem rest k _ hnm, lookupKV_insertKV_self]
    · exact step ▸ ih _ h hnd.2

/-! ### wandb run-list lemmas -/

theorem updLast_append (f : WandbRun → WandbRun) (l : List WandbRun) (r : WandbRun) :
    updLast f (l ++ [r]) = l ++ [f r] := by
  induction l with
  | nil => rfl
  | cons x xs ih =>
    cases xs with
    | nil => rfl
    | cons y ys =>
      show x :: updLast f ((y :: ys) ++ [r]) = x :: ((y :: ys) ++ [f r])
      rw [ih]

/-- Effect of one `__call__` on a state whose run list ends in the active
run `r`: the prefix is untouched and `r` receives one config update and one
history entry. -/
theorem wandbCall_runs (self : WeightsAndBiasesCallback) (study : WStudy)
    (trial : FrozenTrial) (l : List WandbRun) (r : WandbRun) (st : WandbState)
    (h : st.runs = l ++ [r]) :
    (wandbCall self study trial st).2.runs =
      l ++ [{ r with
              config := dictUpdate r.config (wandbAttributes study trial),
              history := r.history ++ [(trial.number, wandbLoggedDict self trial)] }] := by
  simp only [wandbCall, wandbLog, wandbConfigUpdate, updateActive, h, updLast_append]

/-- Effect of a whole sequence of `__call__`s on a state whose run list ends
in the active run `r`: no run is created or removed, the active run's
settings are untouched, and its history receives exactly one entry per
trial, logged at step `trial.number` with the `__call__` payload. -/
theorem wandbFold_runs (self : WeightsAndBiasesCallback)
    (events : List (WStudy × FrozenTrial)) :
    ∀ (l : List WandbRun) (r : WandbRun) (st : WandbState), st.runs = l ++ [r] →
      ∃ c, (wandbFold self events st).2.runs =
        l ++ [{ r with
                config := c,
                history := r.history ++
                  events.map (fun ev => (ev.2.number, wandbLoggedDict self ev.2)) }] := by
  induction events with
  | nil =>
    intro l r st h
    exact ⟨r.config, by simpa using h⟩
  | cons e rest ih =>
    intro l r st h
    have hstep := wandbCall_runs self e.1 e.2 l r st h
    have hfirst : (wandbFold self (e :: rest) st) =
        wandbFold self rest (wandbCall self e.1 e.2 st).2 := rfl
    obtain ⟨c, hc⟩ := ih l
      { r with
        config := dictUpdate r.config (wandbAttributes e.1 e.2),
        history := r.history ++ [(e.2.number, wandbLoggedDict self e.2)] }
      (wandbCall self e.1 e.2 st).2 hstep
    refine ⟨c, ?_⟩
    rw [hfirst, hc]
    simp

/-- C5 helper: `__call__` leaves the adapter object untouched, for a single
invocation. -/
theorem wandbCall_self (self : WeightsAndBiasesCallback) (study : WStudy)
    (trial : FrozenTrial) (st : WandbState) :
    (wandbCall self study trial st).1 = self := rfl

/-- C5.
For every adapter instance and every sequence of `__call__` invocations, the
configuration fields stored at construction (`_metric_name`,
`_project_name`, `_group_name`, `_entity_name`, `_run_name`, `_job_type`,
`_mode`) are never modified: the adapter object threaded through any event
sequence is the object one started with. -/
theorem wandb_callback_config_immutable (self : WeightsAndBiasesCallback)
    (events : List (WStudy × FrozenTrial)) (st : WandbState) :
    (wandbFold self events st).1 = self := by
  induction events generalizing st with
  | nil => rfl
  | cons e rest ih => exact ih _

/-- C6.
The wandb adapter records the whole study as one single flat run: the
constructor performs exactly one `wandb.init`, with the
constructor-supplied configuration (project, group, entity, run name, job
type, mode) and fresh config/history; and every subsequent sequence of
per-trial `__call__`s appends, to that same run, one history entry per
trial — the trial's params-and-metric payload at step `trial.number` —
creating no further run (only the run's accumulated config is otherwise
updated). -/
theorem wandb_single_flat_run (metric_name : String)
    (project_name group_name entity_name run_name job_type : Option String)
    (mode : String) (st0 : WandbState) (events : List (WStudy × FrozenTrial)) :
    (wandbCallbackNew metric_name project_name group_name entity_name run_name
        job_type mode st0).2.runs =
      st0.runs ++ [⟨project_name, group_name, entity_name, run_name, job_type, mode, [], []⟩]
    ∧ ∃ c,
      (wandbFold
          (wandbCallbackNew metric_name project_name group_name entity_name run_name
            job_type mode st0).1
          events
          (wandbCallbackNew metric_name project_name group_name entity_name run_name
            job_type mode st0).2).2.runs =
        st0.runs ++
          [⟨project_name, group_name, entity_name, run_name, job_type, mode, c,
            events.map (fun ev =>
              (ev.2.number,
               wandbLoggedDict
                 ⟨metric_name, project_name, group_name, entity_name, run_name,
                  job_type, mode⟩ ev.2))⟩] := by
  constructor
  · rfl
  · obtain ⟨c, hc⟩ := wandbFold_runs
      ⟨metric_name, project_name, group_name, entity_name, run_name, job_type, mode⟩
      events st0.runs
      ⟨project_name, group_name, entity_name, run_name, job_type, mode, [], []⟩
      (wandbCallbackNew metric_name project_name group_name entity_name run_name
        job_type mode st0).2 rfl
    exact ⟨c, by simpa using hc⟩

/-- C9.
In `__call__` (`wandb.py` line 114) the logged dict is
`{**trial.params, self._metric_name: trial.value}`: the metric binding is
inserted after the parameters, so for every trial having a parameter named
exactly like the configured metric, the objective value silently overwrites
that parameter in the logged record — the dict maps the metric name to
`trial.value`, and the parameter's own (distinct) value appears nowhere. -/
theorem wandb_metric_overwrites_param (self : WeightsAndBiasesCallback)
    (trial : FrozenTrial) (pv : WVal)
    (_hmem : (self._metric_name, pv) ∈ trial.params) :
    lookupKV (wandbLoggedDict self trial) self._metric_name = some (trialValueW trial)
    ∧ (pv ≠ trialValueW trial → (self._metric_name, pv) ∉ wandbLoggedDict self trial) := by
  have hform : wandbLoggedDict self trial
      = insertKV (mkDict trial.params) self._metric_name (trialValueW trial) :=
    mkDict_append_singleton _ _ _
  constructor
  · rw [hform]
    exact lookupKV_insertKV_self _ _ _
  · intro hne hmem2
    rw [hform] at hmem2
    exact hne (mem_insertKV_self_eq _ _ _ _ (nodup_keysKV_mkDict trial.params) hmem2)

/-- Witness for C9: a trial with a parameter literally named "value" and a
default-configured adapter; the logged dict maps "value" to the objective
(1), not to the parameter's own value (7). -/
theorem wandb_metric_overwrites_param_witness :
    (("value" : String), WVal.wnum 7) ∈
        (⟨0, .complete, .single (some 1), [("value", WVal.wnum 7)], [], []⟩ :
          FrozenTrial).params
    ∧ lookupKV
        (wandbLoggedDict ⟨"value", none, none, none, none, none, "online"⟩
          ⟨0, .complete, .single (some 1), [("value", WVal.wnum 7)], [], []⟩)
        "value" = some (WVal.wnum 1) :=
  ⟨by decide,
   (wandb_metric_overwrites_param ⟨"value", none, none, none, none, none, "online"⟩
      ⟨0, .complete, .single (some 1), [("value", WVal.wnum 7)], [], []⟩
      (WVal.wnum 7) (by decide)).1⟩

/-- C10.
In `__call__` (`wandb.py` lines 106-111) the attributes dict is
`{"direction": …, "trial_state": …, "distributions": …, **study.user_attrs}`:
the study's user attributes are merged after the three fixed keys, so a
study user attribute named like one of them replaces the adapter-computed
value in the forwarded attributes; and the trial's own user attributes are
never read — `__call__` is invariant under changing them. -/
theorem wandb_study_attr_overrides_fixed_key (self : WeightsAndBiasesCallback)
    (study : WStudy) (trial : FrozenTrial) (k : String) (v : WVal)
    (_hk : k = "direction" ∨ k = "trial_state" ∨ k = "distributions")
    (hmem : (k, v) ∈ study.user_attrs)
    (hnd : (keysKV study.user_attrs).Nodup) :
    lookupKV (wandbAttributes study trial) k = some v
    ∧ ∀ (u : List (String × WVal)) (st : WandbState),
        wandbCall self study { trial with user_attrs := u } st =
          wandbCall self study trial st := by
  constructor
  · have hform : wandbAttributes study trial =
        dictUpdate
          (mkDict
            [("direction", .wstr (directionStr study.direction)),
             ("trial_state", .wstr (stateStr trial.state)),
             ("distributions", .wdists trial.distributions)])
          study.user_attrs := by
      simp [wandbAttributes, mkDict, dictUpdate, List.foldl_append]
    rw [hform]
    exact lookupKV_dictUpdate_mem _ _ _ _ hmem hnd
  · intro u st
    cases trial
    rfl

/-- Witness for C10: a study whose user attribute "direction" carries the
string "overridden"; the forwarded attributes map "direction" to it. -/
theorem wandb_study_attr_overrides_fixed_key_witness :
    ((("direction" : String) = "direction" ∨ ("direction" : String) = "trial_state" ∨
        ("direction" : String) = "distributions")
      ∧ (("direction" : String), WVal.wstr "overridden") ∈
          (⟨"s", .minimize, [("direction", WVal.wstr "overridden")]⟩ : WStudy).user_attrs
      ∧ (keysKV (⟨"s", .minimize, [("direction", WVal.wstr "overridden")]⟩ :
          WStudy).user_attrs).Nodup)
    ∧ lookupKV
        (wandbAttributes ⟨"s", .minimize, [("direction", WVal.wstr "overridden")]⟩
          ⟨0, .complete, .single (some 1), [], [], []⟩)
        "direction" = some (WVal.wstr "overridden") :=
  ⟨⟨Or.inl rfl, by decide, by decide⟩,
   (wandb_study_attr_overrides_fixed_key
      ⟨"value", none, none, none, none, none, "online"⟩
      ⟨"s", .minimize, [("direction", WVal.wstr "overridden")]⟩
      ⟨0, .complete, .single (some 1), [], [], []⟩
      "direction" (WVal.wstr "overridden") (Or.inl rfl) (by decide) (by decide)).1⟩

/-! ### The MLflow adapter

The implementation file `optuna/integration/mlflow.py` is not part of the
visible sources; only its test suite is. The definitions below are
therefore modelled from the specification ("forwards them to a second
tracking SDK, optionally nesting each trial as a child run under an active
parent run", "records an equivalent set of key/value tags, parameters, and
metrics, truncating any value exceeding the external service's size
limit"), with the shapes pinned down by `tests/integration_tests/test_mlflow.py`. -/

/-- Modelled from the spec: the external service's size limit on a tag
value — 5000 characters in the MLflow case (`test_tag_truncation`). -/
def MAX_TAG_VAL_LENGTH : Nat := 5000

/-- Modelled from the spec: "truncating any value exceeding the external
service's size limit" — keep at most the first `MAX_TAG_VAL_LENGTH`
characters of a tag value. -/
def truncTag (v : List Char) : List Char :=
  v.take MAX_TAG_VAL_LENGTH

/-- A value recorded as an MLflow metric: a number, or NaN (the recorded
image of a missing objective value, cf. `test_log_metric_none`). -/
inductive MetricValue where
  | nan
  | num (q : ℚ)
deriving DecidableEq, Repr

/-- One MLflow run: its id, the id of its parent run when nested (the
`mlflow.parentRunId` tag of `test_nest_trials`), and the recorded params,
metrics and tags. -/
structure MlflowRun where
  runId : Nat
  parent : Option Nat
  params : List (String × String)
  metrics : List (String × MetricValue)
  tags : List (String × List Char)
deriving DecidableEq, Repr

/-- The exception the MLflow SDK raises on its own: "Run with UUID … is
already active." (`test_mlflow_callback_fails_when_nest_trials_is_false_and_active_run_exists`). -/
inductive MlflowError where
  | runAlreadyActive (activeId : Nat)
deriving DecidableEq, Repr

/-- The MLflow SDK's state: the stack of active runs (innermost first, as
managed by the SDK's own context/session management), the finished runs in
completion order, the next fresh run id, and the current experiment. -/
structure MlflowState where
  activeStack : List MlflowRun
  finished : List MlflowRun
  nextId : Nat
  experiment : Option String
deriving DecidableEq, Repr

/-- A fresh run as `mlflow.start_run` creates it. -/
def newMlflowRun (id : Nat) (parent : Option Nat) : MlflowRun :=
  ⟨id, parent, [], [], []⟩

/-- Modelled from the spec: `mlflow.start_run(nested=…)`. Starting a run
while one is active fails with the SDK's own exception unless nesting is
requested, in which case the new run becomes a child of the active one;
"even that is a single conditional delegated to the external SDK's own
context/session management". -/
def mlflowStartRun (nested : Bool) (st : MlflowState) : Except MlflowError MlflowState :=
  match st.activeStack with
  | [] =>
    .ok { st with activeStack := [newMlflowRun st.nextId none], nextId := st.nextId + 1 }
  | r :: rest =>
    if nested then
      .ok { st with activeStack := newMlflowRun st.nextId (some r.runId) :: r :: rest,
                    nextId := st.nextId + 1 }
    else
      .error (.runAlreadyActive r.runId)

/-- `mlflow.end_run()`: the innermost active run finishes. -/
def mlflowEndRun (st : MlflowState) : MlflowState :=
  match st.activeStack with
  | [] => st
  | r :: rest => { st with activeStack := rest, finished := st.finished ++ [r] }

/-- Apply an SDK logging call to the innermost active run. -/
def withActiveRun (f : MlflowRun → MlflowRun) (st : MlflowState) : MlflowState :=
  match st.activeStack with
  | [] => st
  | r :: rest => { st with activeStack := f r :: rest }

/-- `metric_name` may be one name or a list of names
(`test_log_metric_multi_objective`). -/
inductive PyStrOrList where
  | s (name : String)
  | l (names : List String)
deriving DecidableEq, Repr

/-- Modelled from the spec: the MLflow adapter object — "a handful of
configuration fields (service endpoint, naming, feature flags)" supplied at
construction: tracking URI, metric name(s), the nesting flag, and the flag
tagging study user attributes (`test_tag_study_user_attrs`). -/
structure MLflowCallback where
  tracking_uri : Option String
  metric_name : PyStrOrList
  nest_trials : Bool
  tag_study_user_attrs : Bool
deriving DecidableEq, Repr

/-- Normalize the configured metric name(s) to a list. -/
def normNames : PyStrOrList → List String
  | .s name => [name]
  | .l names => names

/-- Normalize the objective value(s) to a list. -/
def normVals : PyVals → List (Option ℚ)
  | .single v => [v]
  | .multi vs => vs

/-- A missing objective value is recorded as NaN (`test_log_metric_none`). -/
def metricOf : Option ℚ → MetricValue
  | none => .nan
  | some q => .num q

/-- The metric entries one `log_metric` invocation records: the i-th
configured name paired with the i-th value. -/
def logMetricEntries (cfg : MLflowCallback) (values : PyVals) :
    List (String × MetricValue) :=
  List.zipWith (fun n v => (n, metricOf v)) (normNames cfg.metric_name) (normVals values)

/-- Modelled from the spec: `log_metric` — record the objective value(s)
under the configured metric name(s) on the given run. -/
def logMetricRun (cfg : MLflowCallback) (values : PyVals) (r : MlflowRun) : MlflowRun :=
  { r with metrics := r.metrics ++ logMetricEntries cfg values }

/-- Modelled from the spec: `log_params` — record every trial parameter,
stringified, as a logged parameter of the run (`test_log_params`). -/
def logParamsRun (trial : FrozenTrial) (r : MlflowRun) : MlflowRun :=
  { r with params := r.params ++ trial.params.map (fun kv => (kv.1, wvalStr kv.2)) }

/-- Modelled from the spec: `set_tags` — record the study direction, the
trial state, each parameter's distribution (under `<param>_distribution`),
the trial's user attributes, and — when `tag_study_user_attrs` is set — the
study's user attributes, as tags, each value truncated to the service's
size limit (`test_study_name`, `test_tag_truncation`,
`test_tag_study_user_attrs`). -/
def setTagsRun (cfg : MLflowCallback) (study : WStudy) (trial : FrozenTrial)
    (r : MlflowRun) : MlflowRun :=
  let base : List (String × List Char) :=
    [("direction", (directionStr study.direction).toList),
     ("state", (stateStr trial.state).toList)]
  let dists : List (String × List Char) :=
    trial.distributions.map (fun pd => (pd.1 ++ "_distribution", (distStr pd.2).toList))
  let uattrs : List (String × List Char) :=
    trial.user_attrs.map (fun kv => (kv.1, (wvalStr kv.2).toList))
  let sattrs : List (String × List Char) :=
    if cfg.tag_study_user_attrs then
      study.user_attrs.map (fun kv => (kv.1, (wvalStr kv.2).toList))
    else []
  { r with tags := r.tags ++
      (base ++ dists ++ uattrs ++ sattrs).map (fun kv => (kv.1, truncTag kv.2)) }

/-- Modelled from the spec: `mlflow.set_experiment(study.study_name)` at the
start of each callback invocation (`test_study_name` asserts the experiment
carries the study name). -/
def initExperiment (study : WStudy) (st : MlflowState) : MlflowState :=
  { st with experiment := some study.study_name }

/-- The run a single MLflow callback invocation records for a trial, given
the fresh run id and the parent run id, before the run is closed. -/
def recordedRun (cfg : MLflowCallback) (study : WStudy) (trial : FrozenTrial)
    (id : Nat) (parent : Option Nat) : MlflowRun :=
  setTagsRun cfg study trial
    (logParamsRun trial (logMetricRun cfg trial.values (newMlflowRun id parent)))

/-- Modelled from the spec: `MLflowCallback.__call__` — set the experiment,
start a run (nested iff `nest_trials`), log metric(s), params and tags,
and end the run. Failures of `start_run` surface unchanged: "this code
performs no recovery, retry, or translation". -/
def mlflowCall (cfg : MLflowCallback) (study : WStudy) (trial : FrozenTrial)
    (st : MlflowState) : Except MlflowError MlflowState :=
  let st1 := initExperiment study st
  match mlflowStartRun cfg.nest_trials st1 with
  | .error e => .error e
  | .ok st2 =>
    .ok (mlflowEndRun
      (withActiveRun
        (fun r => setTagsRun cfg study trial
          (logParamsRun trial (logMetricRun cfg trial.values r))) st2))

/-- The external driver loop: invoke the callback once per completed trial,
stopping at the first SDK error. -/
def mlflowOptimize (cfg : MLflowCallback) (study : WStudy) (ts : List FrozenTrial)
    (st : MlflowState) : Except MlflowError MlflowState :=
  match ts with
  | [] => .ok st
  | t :: rest =>
    match mlflowCall cfg study t st with
    | .error e => .error e
    | .ok st1 => mlflowOptimize cfg study rest st1

/-- The child runs an optimization records, in order, starting from a fresh
run id: one `recordedRun` per trial. -/
def childrenFrom (cfg : MLflowCallback) (study : WStudy) (parent : Option Nat)
    (nid : Nat) : List FrozenTrial → List MlflowRun
  | [] => []
  | t :: ts => recordedRun cfg study t nid parent :: childrenFrom cfg study parent (nid + 1) ts

/-! ### MLflow call-shape lemmas -/

theorem mlflowCall_empty_stack (cfg : MLflowCallback) (study : WStudy)
    (trial : FrozenTrial) (st : MlflowState) (h : st.activeStack = []) :
    mlflowCall cfg study trial st =
      .ok ⟨[], st.finished ++ [recordedRun cfg study trial st.nextId none],
           st.nextId + 1, some study.study_name⟩ := by
  obtain ⟨stack, fin, nid, exp⟩ := st
  simp only at h
  subst h
  rfl

theorem mlflowCall_nested (cfg : MLflowCallback) (study : WStudy) (trial : FrozenTrial)
    (st : MlflowState) (r : MlflowRun) (rest : List MlflowRun)
    (h : st.activeStack = r :: rest) (hn : cfg.nest_trials = true) :
    mlflowCall cfg study trial st =
      .ok ⟨r :: rest,
           st.finished ++ [recordedRun cfg study trial st.nextId (some r.runId)],
           st.nextId + 1, some study.study_name⟩ := by
  obtain ⟨uri, mn, nest, tsa⟩ := cfg
  simp only at hn
  subst hn
  obtain ⟨stack, fin, nid, exp⟩ := st
  simp only at h
  subst h
  rfl

theorem recordedRun_parent (cfg : MLflowCallback) (study : WStudy) (trial : FrozenTrial)
    (id : Nat) (parent : Option Nat) :
    (recordedRun cfg study trial id parent).parent = parent := rfl

theorem recordedRun_params (cfg : MLflowCallback) (study : WStudy) (trial : FrozenTrial)
    (id : Nat) (parent : Option Nat) :
    (recordedRun cfg study trial id parent).params =
      trial.params.map (fun kv => (kv.1, wvalStr kv.2)) := rfl

theorem recordedRun_metrics (cfg : MLflowCallback) (study : WStudy) (trial : FrozenTrial)
    (id : Nat) (parent : Option Nat) :
    (recordedRun cfg study trial id parent).metrics = logMetricEntries cfg trial.values := rfl

/-- The tag list of a recorded run: every source pair, its value truncated. -/
theorem recordedRun_tags (cfg : MLflowCallback) (study : WStudy) (trial : FrozenTrial)
    (id : Nat) (parent : Option Nat) :
    (recordedRun cfg study trial id parent).tags =
      ([("direction", (directionStr study.direction).toList),
        ("state", (stateStr trial.state).toList)]
       ++ trial.distributions.map (fun pd => (pd.1 ++ "_distribution", (distStr pd.2).toList))
       ++ trial.user_attrs.map (fun a => (a.1, (wvalStr a.2).toList))
       ++ (if cfg.tag_study_user_attrs then
             study.user_attrs.map (fun a => (a.1, (wvalStr a.2).toList))
           else [])).map (fun kv => (kv.1, truncTag kv.2)) := rfl

theorem mem_recordedRun_tags (cfg : MLflowCallback) (study : WStudy) (trial : FrozenTrial)
    (id : Nat) (parent : Option Nat) (kv : String × List Char)
    (h : kv ∈
      ([("direction", (directionStr study.direction).toList),
        ("state", (stateStr trial.state).toList)]
       ++ trial.distributions.map (fun pd => (pd.1 ++ "_distribution", (distStr pd.2).toList))
       ++ trial.user_attrs.map (fun a => (a.1, (wvalStr a.2).toList))
       ++ (if cfg.tag_study_user_attrs then
             study.user_attrs.map (fun a => (a.1, (wvalStr a.2).toList))
           else []))) :
    (kv.1, truncTag kv.2) ∈ (recordedRun cfg study trial id parent).tags := by
  rw [recordedRun_tags]
  exact List.mem_map_of_mem _ h

theorem recordedRun_tags_length (cfg : MLflowCallback) (study : WStudy)
    (trial : FrozenTrial) (id : Nat) (parent : Option Nat) :
    ∀ kv ∈ (recordedRun cfg study trial id parent).tags,
      kv.2.length ≤ MAX_TAG_VAL_LENGTH := by
  intro kv hkv
  rw [recordedRun_tags] at hkv
  obtain ⟨pre, _, heq⟩ := List.mem_map.mp hkv
  rw [← heq]
  simp [truncTag, List.length_take]

theorem childrenFrom_length (cfg : MLflowCallback) (study : WStudy) (parent : Option Nat) :
    ∀ (ts : List FrozenTrial) (nid : Nat),
      (childrenFrom cfg study parent nid ts).length = ts.length := by
  intro ts
  induction ts with
  | nil => intro nid; rfl
  | cons t rest ih => intro nid; simp [childrenFrom, ih]

theorem childrenFrom_parent (cfg : MLflowCallback) (study : WStudy) (parent : Option Nat) :
    ∀ (ts : List FrozenTrial) (nid : Nat) (r : MlflowRun),
      r ∈ childrenFrom cfg study parent nid ts → r.parent = parent := by
  intro ts
  induction ts with
  | nil =>
    intro nid r hr
    simp [childrenFrom] at hr
  | cons t rest ih =>
    intro nid r hr
    rcases List.mem_cons.mp hr with h | h
    · rw [h]
      rfl
    · exact ih _ _ h

theorem childrenFrom_getElem (cfg : MLflowCallback) (study : WStudy) (parent : Option Nat) :
    ∀ (ts : List FrozenTrial) (nid i : Nat) (t : FrozenTrial), ts[i]? = some t →
      (childrenFrom cfg study parent nid ts)[i]? =
        some (recordedRun cfg study t (nid + i) parent) := by
  intro ts
  induction ts with
  | nil =>
    intro nid i t h
    simp at h
  | cons t0 rest ih =>
    intro nid i t h
    cases i with
    | zero =>
      simp at h
      rw [h] at *
      simp [childrenFrom]
    | succ j =>
      simp only [List.getElem?_cons_succ] at h
      have := ih (nid + 1) j t h
      simp only [childrenFrom, List.getElem?_cons_succ]
      rw [this]
      congr 2
      omega

/-- Folding the callback over a trial sequence with nesting enabled and a
single active parent run: every call succeeds, the parent stays active, and
the finished runs are exactly one child per trial, in order, with fresh
consecutive ids. -/
theorem mlflowOptimize_nested (cfg : MLflowCallback) (study : WStudy)
    (hn : cfg.nest_trials = true) :
    ∀ (ts : List FrozenTrial) (p : MlflowRun) (st : MlflowState),
      st.activeStack = [p] →
      ∃ st1, mlflowOptimize cfg study ts st = .ok st1
        ∧ st1.activeStack = [p]
        ∧ st1.finished = st.finished ++ childrenFrom cfg study (some p.runId) st.nextId ts
        ∧ st1.nextId = st.nextId + ts.length := by
  intro ts
  induction ts with
  | nil =>
    intro p st h
    exact ⟨st, rfl, h, by simp [childrenFrom], by simp⟩
  | cons t rest ih =>
    intro p st h
    have hcall := mlflowCall_nested cfg study t st p [] h hn
    obtain ⟨st1, h1, h2, h3, h4⟩ := ih p
      ⟨[p], st.finished ++ [recordedRun cfg study t st.nextId (some p.runId)],
       st.nextId + 1, some study.study_name⟩ rfl
    refine ⟨st1, ?_, h2, ?_, ?_⟩
    · have hstep : mlflowOptimize cfg study (t :: rest) st =
          mlflowOptimize cfg study rest
            ⟨[p], st.finished ++ [recordedRun cfg study t st.nextId (some p.runId)],
             st.nextId + 1, some study.study_name⟩ := by
        simp [mlflowOptimize, hcall]
      rw [hstep]
      exact h1
    · rw [h3]
      simp [childrenFrom, List.append_assoc]
    · rw [h4]
      simp
      omega

theorem truncTag_of_short {v : List Char} (h : v.length ≤ MAX_TAG_VAL_LENGTH) :
    truncTag v = v := by
  simp only [truncTag]
  exact List.take_of_length_le h

theorem truncTag_stateStr (s : TrialState) :
    truncTag (stateStr s).toList = (stateStr s).toList := by
  apply truncTag_of_short
  cases s <;> decide

theorem truncTag_directionStr (d : StudyDirection) :
    truncTag (directionStr d).toList = (directionStr d).toList := by
  apply truncTag_of_short
  cases d <;> decide

/-- C1.
One MLflow callback invocation on a completed trial records a run whose
params, metrics and tags are equivalent to the trial's and study's fields:
every trial parameter is a logged parameter, the objective value is a
metric under the configured metric name, and the trial state, the study
direction, each parameter's distribution, and the user attributes appear as
tags (study user attributes under the `tag_study_user_attrs` flag). -/
theorem mlflow_call_records_equivalent_fields (cfg : MLflowCallback) (study : WStudy)
    (trial : FrozenTrial) (st : MlflowState) (m : String) (v : ℚ)
    (hstack : st.activeStack = [])
    (hm : cfg.metric_name = .s m)
    (hv : trial.values = .single (some v)) :
    mlflowCall cfg study trial st =
      .ok ⟨[], st.finished ++ [recordedRun cfg study trial st.nextId none],
           st.nextId + 1, some study.study_name⟩
    ∧ (∀ p pv, (p, pv) ∈ trial.params →
        (p, wvalStr pv) ∈ (recordedRun cfg study trial st.nextId none).params)
    ∧ (m, MetricValue.num v) ∈ (recordedRun cfg study trial st.nextId none).metrics
    ∧ ("state", (stateStr trial.state).toList) ∈
        (recordedRun cfg study trial st.nextId none).tags
    ∧ ("direction", (directionStr study.direction).toList) ∈
        (recordedRun cfg study trial st.nextId none).tags
    ∧ (∀ p d, (p, d) ∈ trial.distributions →
        (p ++ "_distribution", truncTag (distStr d).toList) ∈
          (recordedRun cfg study trial st.nextId none).tags)
    ∧ (∀ k av, (k, av) ∈ trial.user_attrs →
        (k, truncTag (wvalStr av).toList) ∈
          (recordedRun cfg study trial st.nextId none).tags)
    ∧ (cfg.tag_study_user_attrs = true →
        ∀ k av, (k, av) ∈ study.user_attrs →
          (k, truncTag (wvalStr av).toList) ∈
            (recordedRun cfg study trial st.nextId none).tags) := by
  refine ⟨mlflowCall_empty_stack cfg study trial st hstack, ?_, ?_, ?_, ?_, ?_, ?_, ?_⟩
  · intro p pv hp
    rw [recordedRun_params]
    exact List.mem_map.mpr ⟨(p, pv), hp, rfl⟩
  · rw [recordedRun_metrics, hv]
    simp [logMetricEntries, hm, normNames, normVals, metricOf]
  · rw [← truncTag_stateStr trial.state]
    exact mem_recordedRun_tags cfg study trial st.nextId none
      ("state", (stateStr trial.state).toList) (by simp)
  · rw [← truncTag_directionStr study.direction]
    exact mem_recordedRun_tags cfg study trial st.nextId none
      ("direction", (directionStr study.direction).toList) (by simp)
  · intro p d hd
    exact mem_recordedRun_tags cfg study trial st.nextId none
      (p ++ "_distribution", (distStr d).toList)
      (by
        simp only [List.append_assoc, List.mem_append, List.mem_map]
        exact Or.inr (Or.inl ⟨(p, d), hd, rfl⟩))
  · intro k av ha
    exact mem_recordedRun_tags cfg study trial st.nextId none
      (k, (wvalStr av).toList)
      (by
        simp only [List.append_assoc, List.mem_append, List.mem_map]
        exact Or.inr (Or.inr (Or.inl ⟨(k, av), ha, rfl⟩)))
  · intro hflag k av ha
    exact mem_recordedRun_tags cfg study trial st.nextId none
      (k, (wvalStr av).toList)
      (by
        simp only [List.append_assoc, List.mem_append, List.mem_map, hflag, if_true]
        exact Or.inr (Or.inr (Or.inr ⟨(k, av), ha, rfl⟩)))

/-- C2.
The MLflow callback truncates every tag value to the service's size limit
(5000 characters): in the run recorded for a trial, every tag value has
length at most 5000; a trial user attribute is recorded under its key with
its value truncated; and a value already within the limit is forwarded
unchanged. -/
theorem mlflow_user_attr_truncation (cfg : MLflowCallback) (study : WStudy)
    (trial : FrozenTrial) (st : MlflowState)
    (hstack : st.activeStack = []) :
    mlflowCall cfg study trial st =
      .ok ⟨[], st.finished ++ [recordedRun cfg study trial st.nextId none],
           st.nextId + 1, some study.study_name⟩
    ∧ (∀ kv ∈ (recordedRun cfg study trial st.nextId none).tags,
        kv.2.length ≤ MAX_TAG_VAL_LENGTH)
    ∧ (∀ k av, (k, av) ∈ trial.user_attrs →
        (k, truncTag (wvalStr av).toList) ∈
          (recordedRun cfg study trial st.nextId none).tags
        ∧ ((wvalStr av).toList.length ≤ MAX_TAG_VAL_LENGTH →
            (k, (wvalStr av).toList) ∈
              (recordedRun cfg study trial st.nextId none).tags)) := by
  refine ⟨mlflowCall_empty_stack cfg study trial st hstack,
          recordedRun_tags_length cfg study trial st.nextId none, ?_⟩
  intro k av ha
  have hmem := mem_recordedRun_tags cfg study trial st.nextId none
    (k, (wvalStr av).toList)
    (by
      simp only [List.append_assoc, List.mem_append, List.mem_map]
      exact Or.inr (Or.inr (Or.inl ⟨(k, av), ha, rfl⟩)))
  exact ⟨hmem, fun hshort => by rwa [truncTag_of_short hshort] at hmem⟩

/-- C4.
With nesting disabled and a run already active, invoking the MLflow
callback surfaces the SDK's own "Run with UUID … is already active."
exception unchanged: the adapter neither catches, retries, nor translates
it. -/
theorem mlflow_active_run_error_surfaces (cfg : MLflowCallback) (study : WStudy)
    (trial : FrozenTrial) (st : MlflowState) (r : MlflowRun) (rest : List MlflowRun)
    (hn : cfg.nest_trials = false)
    (h : st.activeStack = r :: rest) :
    mlflowCall cfg study trial st = .error (MlflowError.runAlreadyActive r.runId) := by
  obtain ⟨uri, mn, nest, tsa⟩ := cfg
  simp only at hn
  subst hn
  obtain ⟨stack, fin, nid, exp⟩ := st
  simp only at h
  subst h
  rfl

/-- C3.
Optimizing a study with the MLflow adapter constructed with `nest_trials`
enabled while a parent run is active records each of the n completed trials
as a child run carrying the parent run's id — after the parent run closes,
n + 1 runs exist in total — and each child run carries exactly the trial's
parameters and the configured metric. -/
theorem mlflow_nest_trials_child_runs (cfg : MLflowCallback) (study : WStudy)
    (ts : List FrozenTrial) (p : MlflowRun) (st0 : MlflowState)
    (hn : cfg.nest_trials = true)
    (hstack : st0.activeStack = [p])
    (hfin : st0.finished = []) :
    ∃ st1, mlflowOptimize cfg study ts st0 = .ok st1
      ∧ st1.finished.length = ts.length
      ∧ (mlflowEndRun st1).finished.length = ts.length + 1
      ∧ (∀ r ∈ st1.finished, r.parent = some p.runId)
      ∧ (∀ (i : Nat) (t : FrozenTrial), ts[i]? = some t →
          ∃ r : MlflowRun, st1.finished[i]? = some r
            ∧ r.parent = some p.runId
            ∧ r.params = t.params.map (fun kv => (kv.1, wvalStr kv.2))
            ∧ (∀ (m : String) (v : ℚ), cfg.metric_name = .s m →
                t.values = .single (some v) →
                r.metrics = [(m, MetricValue.num v)])) := by
  obtain ⟨st1, h1, h2, h3, h4⟩ := mlflowOptimize_nested cfg study hn ts p st0 hstack
  have hfin1 : st1.finished = childrenFrom cfg study (some p.runId) st0.nextId ts := by
    rw [h3, hfin]
    simp
  have hend : (mlflowEndRun st1).finished = st1.finished ++ [p] := by
    simp [mlflowEndRun, h2]
  refine ⟨st1, h1, ?_, ?_, ?_, ?_⟩
  · rw [hfin1]
    exact childrenFrom_length cfg study (some p.runId) ts st0.nextId
  · rw [hend]
    simp [hfin1, childrenFrom_length]
  · intro r hr
    rw [hfin1] at hr
    exact childrenFrom_parent cfg study (some p.runId) ts st0.nextId r hr
  · intro i t ht
    refine ⟨recordedRun cfg study t (st0.nextId + i) (some p.runId), ?_,
            recordedRun_parent cfg study t (st0.nextId + i) (some p.runId),
            recordedRun_params cfg study t (st0.nextId + i) (some p.runId), ?_⟩
    · rw [hfin1]
      exact childrenFrom_getElem cfg study (some p.runId) ts st0.nextId i t ht
    · intro m v hm hv
      rw [recordedRun_metrics, hv]
      simp [logMetricEntries, hm, normNames, normVals, metricOf]

/-- C7.
With the MLflow adapter configured with k metric names and given k
objective values, `log_metric` records each value under the name at the
same position: one metric entry per position, the i-th name paired with the
i-th value. -/
theorem mlflow_multi_metric_positions (cfg : MLflowCallback) (names : List String)
    (vals : List ℚ) (run : MlflowRun) (i : Nat) (n : String) (v : ℚ)
    (hm : cfg.metric_name = .l names)
    (_hlen : vals.length = names.length)
    (hn : names[i]? = some n) (hv : vals[i]? = some v) :
    (logMetricRun cfg (.multi (vals.map some)) run).metrics =
      run.metrics ++ List.zipWith (fun a b => (a, metricOf b)) names (vals.map some)
    ∧ (logMetricRun cfg (.multi (vals.map some)) run).metrics[run.metrics.length + i]? =
        some (n, MetricValue.num v) := by
  have hentries : logMetricEntries cfg (.multi (vals.map some)) =
      List.zipWith (fun a b => (a, metricOf b)) names (vals.map some) := by
    simp [logMetricEntries, hm, normNames, normVals]
  have hmetrics : (logMetricRun cfg (.multi (vals.map some)) run).metrics =
      run.metrics ++ List.zipWith (fun a b => (a, metricOf b)) names (vals.map some) := by
    simp [logMetricRun, hentries]
  refine ⟨hmetrics, ?_⟩
  rw [hmetrics, List.getElem?_append_right (Nat.le_add_right _ _)]
  have hsub : run.metrics.length + i - run.metrics.length = i := by omega
  rw [hsub, List.getElem?_zipWith_eq_some]
  refine ⟨n, some v, hn, ?_, rfl⟩
  simp [hv]

/-- C8.
Given the objective value `None` (a trial with no value), the MLflow
`log_metric` operation neither fails nor omits the metric: it records the
value NaN under the configured metric name. -/
theorem mlflow_log_metric_none_nan (cfg : MLflowCallback) (m : String)
    (run : MlflowRun) (hm : cfg.metric_name = .s m) :
    (logMetricRun cfg (.single none) run).metrics =
      run.metrics ++ [(m, MetricValue.nan)] := by
  simp [logMetricRun, logMetricEntries, hm, normNames, normVals, metricOf]

/-! ### Concrete witness fixtures -/

/-- Sample single-metric MLflow adapter with study-attribute tagging. -/
def wCfgS : MLflowCallback := ⟨none, .s "value", false, true⟩

/-- Sample MLflow adapter with nesting enabled. -/
def wCfgNest : MLflowCallback := ⟨none, .s "value", true, false⟩

/-- Sample MLflow adapter with nesting disabled. -/
def wCfgNoNest : MLflowCallback := ⟨none, .s "value", false, false⟩

/-- Sample MLflow adapter with two metric names. -/
def wCfgMulti : MLflowCallback := ⟨none, .l ["m1", "m2"], false, false⟩

/-- Sample MLflow adapter with a custom metric name. -/
def wCfgMName : MLflowCallback := ⟨none, .s "my_metric_name", false, false⟩

/-- Sample study. -/
def wStudy1 : WStudy := ⟨"my_study", .minimize, [("sattr", .wstr "sv")]⟩

/-- Sample completed trial. -/
def wTrial1 : FrozenTrial :=
  ⟨0, .complete, .single (some 1), [("x", .wnum 2)], [("x", .uniform (-1) 1)],
   [("my_user_attr", .wstr "attr_value")]⟩

/-- Sample MLflow state with no active run. -/
def wStEmpty : MlflowState := ⟨[], [], 0, none⟩

/-- Sample parent run. -/
def wParent : MlflowRun := newMlflowRun 0 none

/-- Sample MLflow state with the parent run active. -/
def wStParent : MlflowState := ⟨[wParent], [], 1, some "my_study"⟩

/-- Witness for C1 at a concrete trial, study and empty-stack state: the
objective appears under "value" and the trial's user attribute appears as a
tag. -/
theorem mlflow_call_records_equivalent_fields_witness :
    (wStEmpty.activeStack = []
      ∧ wCfgS.metric_name = .s "value"
      ∧ wTrial1.values = .single (some 1))
    ∧ ("value", MetricValue.num 1) ∈ (recordedRun wCfgS wStudy1 wTrial1 0 none).metrics
    ∧ ("my_user_attr", truncTag (wvalStr (.wstr "attr_value")).toList) ∈
        (recordedRun wCfgS wStudy1 wTrial1 0 none).tags :=
  ⟨⟨rfl, rfl, rfl⟩,
   (mlflow_call_records_equivalent_fields wCfgS wStudy1 wTrial1 wStEmpty "value" 1
      rfl rfl rfl).2.2.1,
   (mlflow_call_records_equivalent_fields wCfgS wStudy1 wTrial1 wStEmpty "value" 1
      rfl rfl rfl).2.2.2.2.2.2.1 "my_user_attr" (.wstr "attr_value") (by decide)⟩

/-- Witness for C2 at a concrete trial: every recorded tag value respects
the 5000-character limit, and the short user attribute is forwarded
unchanged. -/
theorem mlflow_user_attr_truncation_witness :
    wStEmpty.activeStack = []
    ∧ (∀ kv ∈ (recordedRun wCfgNoNest wStudy1 wTrial1 0 none).tags,
        kv.2.length ≤ MAX_TAG_VAL_LENGTH)
    ∧ ("my_user_attr", (wvalStr (.wstr "attr_value")).toList) ∈
        (recordedRun wCfgNoNest wStudy1 wTrial1 0 none).tags :=
  ⟨rfl,
   (mlflow_user_attr_truncation wCfgNoNest wStudy1 wTrial1 wStEmpty rfl).2.1,
   ((mlflow_user_attr_truncation wCfgNoNest wStudy1 wTrial1 wStEmpty rfl).2.2
      "my_user_attr" (.wstr "attr_value") (by decide)).2 (by decide)⟩

/-- Witness for C3: one trial optimized under an active parent run yields
one finished child run, two runs in total once the parent closes, and every
child carries the parent's id. -/
theorem mlflow_nest_trials_child_runs_witness :
    (wCfgNest.nest_trials = true
      ∧ wStParent.activeStack = [wParent]
      ∧ wStParent.finished = [])
    ∧ ∃ st1, mlflowOptimize wCfgNest wStudy1 [wTrial1] wStParent = .ok st1
        ∧ st1.finished.length = 1
        ∧ (mlflowEndRun st1).finished.length = 2
        ∧ (∀ r ∈ st1.finished, r.parent = some wParent.runId) := by
  refine ⟨⟨rfl, rfl, rfl⟩, ?_⟩
  obtain ⟨st1, h1, h2, h3, h4, _⟩ :=
    mlflow_nest_trials_child_runs wCfgNest wStudy1 [wTrial1] wParent wStParent rfl rfl rfl
  exact ⟨st1, h1, h2, h3, h4⟩

/-- Witness for C4: with nesting disabled and the parent run active, the
call surfaces the SDK's "run already active" error for the active run. -/
theorem mlflow_active_run_error_surfaces_witness :
    (wCfgNoNest.nest_trials = false ∧ wStParent.activeStack = wParent :: [])
    ∧ mlflowCall wCfgNoNest wStudy1 wTrial1 wStParent =
        .error (MlflowError.runAlreadyActive wParent.runId) :=
  ⟨⟨rfl, rfl⟩,
   mlflow_active_run_error_surfaces wCfgNoNest wStudy1 wTrial1 wStParent wParent []
     rfl rfl⟩

/-- Witness for C7 at two names and two values: position 1 records the
second name with the second value. -/
theorem mlflow_multi_metric_positions_witness :
    (wCfgMulti.metric_name = .l ["m1", "m2"]
      ∧ ([(1 : ℚ), 2].length = ["m1", "m2"].length)
      ∧ ["m1", "m2"][1]? = some "m2"
      ∧ [(1 : ℚ), 2][1]? = some 2)
    ∧ (logMetricRun wCfgMulti (.multi ([(1 : ℚ), 2].map some))
        (newMlflowRun 0 none)).metrics[(newMlflowRun 0 none).metrics.length + 1]? =
          some ("m2", MetricValue.num 2) :=
  ⟨⟨rfl, rfl, by decide, by decide⟩,
   (mlflow_multi_metric_positions wCfgMulti ["m1", "m2"] [1, 2] (newMlflowRun 0 none)
      1 "m2" 2 rfl rfl (by decide) (by decide)).2⟩

/-- Witness for C8: logging `None` records NaN under "my_metric_name". -/
theorem mlflow_log_metric_none_nan_witness :
    wCfgMName.metric_name = .s "my_metric_name"
    ∧ (logMetricRun wCfgMName (.single none) (newMlflowRun 0 none)).metrics =
        (newMlflowRun 0 none).metrics ++ [("my_metric_name", MetricValue.nan)] :=
  ⟨rfl, mlflow_log_metric_none_nan wCfgMName "my_metric_name" (newMlflowRun 0 none) rfl⟩
